import Mathlib

/-!
Shallow embedding of `src/data-engineering/lambda/processor.py`.

The module models the Lambda handler `lambda_handler`: for each S3 event
record it URL-decodes the object key, reads the raw object, gunzips it,
transforms each newline-delimited JSON line (dropping the `user_id` field
and adding a fresh `processed_ts` timestamp), and writes the transformed
lines to a `processed/` destination key.

External services are modelled as an environment `Env`:
  - `getObject` / `putObject` model the S3 client calls (failures are
    `Except.error`, modelling raised `ClientError`s);
  - `gunzip` models GZIP decompression followed by UTF-8 decoding;
  - `parse` models `json.loads` on a single line;
  - `clock` models `datetime.now(timezone.utc).isoformat()`: the n-th call
    returns `clock n`, so each call yields its own timestamp value.
The handler also returns the trace of storage operations it issued, in
order, so that frame conditions (what was read or written) are statable.
-/

namespace Processor

/-- JSON values, as produced by `json.loads`.  Objects are association
lists in insertion order (Python dicts preserve insertion order and have
unique keys). -/
inductive Json where
  | null
  | bool (b : Bool)
  | num (n : Int)
  | str (s : String)
  | arr (elems : List Json)
  | obj (fields : List (String × Json))
deriving Repr

/-- First value bound to key `k`, as Python `d[k]` / `k in d`. -/
def getKey : List (String × Json) → String → Option Json
  | [], _ => none
  | (k', v) :: rest, k => if k' = k then some v else getKey rest k

/-- Model of `d.pop(k, None)`'s effect on the dict: the entry for `k` is
removed (a dict holds at most one entry per key); when the key is absent
this is a no-op and raises nothing. -/
def popKey (fields : List (String × Json)) (k : String) : List (String × Json) :=
  fields.filter (fun p => p.1 ≠ k)

/-- Model of `d[k] = v` on a Python dict: an existing key keeps its
position and gets the new value; a new key is appended at the end. -/
def setKey : List (String × Json) → String → Json → List (String × Json)
  | [], k, v => [(k, v)]
  | (k', v') :: rest, k, v =>
    if k' = k then (k, v) :: rest else (k', v') :: setKey rest k v

/-- Escape one character for a JSON string literal, as `json.dumps` does
for the common cases. -/
def escapeChar (c : Char) : String :=
  if c = '"' then "\\\""
  else if c = '\\' then "\\\\"
  else if c = '\n' then "\\n"
  else if c = '\t' then "\\t"
  else if c = '\r' then "\\r"
  else String.mk [c]

/-- Escape a whole string for a JSON string literal. -/
def escapeString (s : String) : String :=
  String.join (s.data.map escapeChar)

mutual
/-- Model of `json.dumps` with default separators. -/
def Json.dumps : Json → String
  | .null => "null"
  | .bool true => "true"
  | .bool false => "false"
  | .num n => toString n
  | .str s => "\"" ++ escapeString s ++ "\""
  | .arr elems => "[" ++ dumpsList elems ++ "]"
  | .obj fields => "\x7b" ++ dumpsFields fields ++ "\x7d"

/-- Comma-separated serialization of array elements. -/
def dumpsList : List Json → String
  | [] => ""
  | [j] => Json.dumps j
  | j :: rest => Json.dumps j ++ ", " ++ dumpsList rest

/-- Comma-separated serialization of object entries. -/
def dumpsFields : List (String × Json) → String
  | [] => ""
  | [(k, v)] => "\"" ++ escapeString k ++ "\": " ++ Json.dumps v
  | (k, v) :: rest =>
    "\"" ++ escapeString k ++ "\": " ++ Json.dumps v ++ ", " ++ dumpsFields rest
end

/-- Value of a hexadecimal digit, as accepted by percent-decoding. -/
def hexVal (c : Char) : Option Nat :=
  if '0' ≤ c ∧ c ≤ '9' then some (c.toNat - '0'.toNat)
  else if 'a' ≤ c ∧ c ≤ 'f' then some (c.toNat - 'a'.toNat + 10)
  else if 'A' ≤ c ∧ c ≤ 'F' then some (c.toNat - 'A'.toNat + 10)
  else none

/-- Character-level percent-decoding: `+` becomes a space, `%hh` with two
hex digits becomes the character with that code, and an invalid escape is
left untouched, as `urllib.parse.unquote_plus` does. -/
def unquoteChars : List Char → List Char
  | [] => []
  | '+' :: rest => ' ' :: unquoteChars rest
  | '%' :: a :: b :: rest =>
    match hexVal a, hexVal b with
    | some hi, some lo => Char.ofNat (16 * hi + lo) :: unquoteChars rest
    | _, _ => '%' :: unquoteChars (a :: b :: rest)
  | c :: rest => c :: unquoteChars rest

/-- Model of `urllib.parse.unquote_plus` on the object key. -/
def unquote_plus (s : String) : String :=
  String.mk (unquoteChars s.data)

/-- Model of Python `str.strip()`: drop whitespace from both ends. -/
def pyStrip (s : String) : String :=
  String.mk (((s.data.dropWhile Char.isWhitespace).reverse.dropWhile
      Char.isWhitespace).reverse)

/-- Split a character list at newline characters. -/
def splitOnNl : List Char → List (List Char)
  | [] => [[]]
  | c :: rest =>
    if c = '\n' then [] :: splitOnNl rest
    else
      match splitOnNl rest with
      | [] => [[c]]
      | h :: t => (c :: h) :: t

/-- Model of Python `str.splitlines` on newline-delimited content: split
on the newline character, without producing a trailing empty line. -/
def splitlines (s : String) : List String :=
  let parts := (splitOnNl s.data).map String.mk
  if parts.getLast? = some "" then parts.dropLast else parts

/-- Second step of the destination-key computation (processor.py lines
84 to 86): when the key ends with `.gz`, drop those three characters and
append the literal `json`. -/
def gzToJson (d : List Char) : List Char :=
  if List.isSuffixOf ".gz".data d
  then d.take (d.length - 3) ++ "json".data
  else d

/-- Destination-key computation on character lists: replace a leading
`raw/` by `processed/` (otherwise prepend `processed/`), then apply the
`.gz` to `json` suffix rewrite. -/
def destKeyChars (k : List Char) : List Char :=
  gzToJson
    (if List.isPrefixOf "raw/".data k
     then "processed/".data ++ k.drop 4
     else "processed/".data ++ k)

/-- Destination key for a decoded source key, as computed at
processor.py lines 78 to 86. -/
def destKeyOf (srcKey : String) : String :=
  String.mk (destKeyChars srcKey.data)

/-- Model of `"\n".join`: join strings with a newline separator. -/
def joinLines : List String → String
  | [] => ""
  | [s] => s
  | s :: rest => s ++ "\n" ++ joinLines rest

/-- Errors that can propagate out of the handler. -/
inductive Err where
  | s3 (msg : String)
  | gzip (msg : String)
  | typeError
deriving Repr, DecidableEq

/-- Storage operations issued by the handler, in order. -/
inductive Op where
  | get (bucket key : String)
  | put (bucket key body : String)
deriving Repr, DecidableEq

/-- The handler's external environment: S3, GZIP, JSON parsing and the
UTC clock.  `clock n` is the value of the n-th call to
`datetime.now(timezone.utc).isoformat()`. -/
structure Env where
  getObject : String → String → Except String String
  putObject : String → String → String → Except String Unit
  gunzip : String → Except String String
  parse : String → Option Json
  clock : Nat → String

/-- One S3 event record: bucket name and (possibly URL-encoded) object
key, as read from `record["s3"]`. -/
structure S3Record where
  bucket : String
  key : String
deriving Repr, DecidableEq

/-- The Lambda event.  `records?` is `none` when the event carries no
"Records" key; `event.get("Records", [])` then yields the empty list. -/
structure Event where
  records? : Option (List S3Record)

/-- Classification of an input line, following the branch structure of
the per-line loop (processor.py lines 48 to 56): blank after stripping,
failing `json.loads`, parsing to a dict, or parsing to a non-dict JSON
value. -/
inductive LineClass where
  | blank
  | malformed
  | objLine (fields : List (String × Json))
  | nonObj
deriving Repr

/-- Classify a line: `line.strip()` empty, `json.loads` failing,
yielding a dict, or yielding some other JSON value. -/
def classify (env : Env) (line : String) : LineClass :=
  let l := pyStrip line
  if l = "" then .blank
  else
    match env.parse l with
    | none => .malformed
    | some (.obj fields) => .objLine fields
    | some _ => .nonObj

/-- Whether a line parses to a JSON object. -/
def isObjLine (env : Env) (line : String) : Bool :=
  match classify env line with
  | .objLine _ => true
  | _ => false

/-- Whether a line parses to valid JSON that is not an object. -/
def isNonObjLine (env : Env) (line : String) : Bool :=
  match classify env line with
  | .nonObj => true
  | _ => false

/-- The per-line transformation loop of processor.py lines 48 to 65.
Blank lines and lines that fail to parse are skipped; a line parsing to a
JSON object has `user_id` removed and `processed_ts` set to the next
clock value; a line parsing to valid JSON that is not an object makes
`.pop("user_id", None)` raise a TypeError, modelled as `Except.error`.
Returns the transformed records and the advanced clock counter. -/
def transformLines (env : Env) : List String → Nat → Except Err (List Json × Nat)
  | [], t => .ok ([], t)
  | line :: rest, t =>
    match classify env line with
    | .blank => transformLines env rest t
    | .malformed => transformLines env rest t
    | .objLine fields =>
      match transformLines env rest (t + 1) with
      | .error e => .error e
      | .ok (recs, t') =>
        .ok (Json.obj (setKey (popKey fields "user_id") "processed_ts"
                (.str (env.clock t))) :: recs, t')
    | .nonObj => .error .typeError

/-- Processing of a single event record with the source key already
decoded: read and gunzip the object, transform the lines, and, when at
least one record was produced, write the joined lines to the destination
key.  Returns the issued operations, the advanced clock counter, and the
outcome. -/
def procWithKey (env : Env) (bucket srcKey : String) (t : Nat) :
    List Op × Nat × Except Err Unit :=
  match env.getObject bucket srcKey with
  | .error e => ([.get bucket srcKey], t, .error (.s3 e))
  | .ok rawBody =>
    match env.gunzip rawBody with
    | .error e => ([.get bucket srcKey], t, .error (.gzip e))
    | .ok content =>
      match transformLines env (splitlines content) t with
      | .error e => ([.get bucket srcKey], t, .error e)
      | .ok (recs, t') =>
        if recs.isEmpty then ([.get bucket srcKey], t', .ok ())
        else
          match env.putObject bucket (destKeyOf srcKey)
              (joinLines (recs.map Json.dumps)) with
          | .error e =>
            ([.get bucket srcKey,
              .put bucket (destKeyOf srcKey) (joinLines (recs.map Json.dumps))],
             t', .error (.s3 e))
          | .ok _ =>
            ([.get bucket srcKey,
              .put bucket (destKeyOf srcKey) (joinLines (recs.map Json.dumps))],
             t', .ok ())

/-- The body of the `for record` loop: the bucket and encoded key are
taken from the event record, the key is URL-decoded with
`unquote_plus`, and the object is processed under the decoded key. -/
def processRecord (env : Env) (r : S3Record) (t : Nat) :
    List Op × Nat × Except Err Unit :=
  procWithKey env r.bucket (unquote_plus r.key) t

/-- Sequential processing of the event records; an error on one record
aborts the loop, so later records are not touched. -/
def runRecords (env : Env) : List S3Record → Nat → List Op × Nat × Except Err Unit
  | [], t => ([], t, .ok ())
  | r :: rs, t =>
    match processRecord env r t with
    | (ops, t', .ok _) =>
      match runRecords env rs t' with
      | (ops₂, t₂, res) => (ops ++ ops₂, t₂, res)
    | (ops, t', .error e) => (ops, t', .error e)

/-- The fixed success return value of the handler. -/
def statusOk : Json := Json.obj [("status", Json.str "ok")]

/-- The whole handler: iterate over `event.get("Records", [])` and return
the fixed status object on normal completion.  The first component is the
trace of storage operations issued. -/
def lambda_handler (env : Env) (event : Event) (t : Nat) :
    List Op × Except Err Json :=
  match runRecords env (event.records?.getD []) t with
  | (ops, _, .ok _) => (ops, .ok statusOk)
  | (ops, _, .error e) => (ops, .error e)

/-- The transformed record a line contributes, given the clock counter at
that point: built from the spec's description of the per-line transform
(skip blank and malformed lines, drop `user_id`, set `processed_ts`). -/
def transformSpec (env : Env) : List String → Nat → List Json
  | [], _ => []
  | line :: rest, t =>
    match classify env line with
    | .objLine fields =>
      Json.obj (setKey (popKey fields "user_id") "processed_ts"
          (.str (env.clock t))) :: transformSpec env rest (t + 1)
    | _ => transformSpec env rest t

/-- Keys of the put operations in a trace, in order. -/
def putKeysOf (ops : List Op) : List String :=
  ops.filterMap (fun op =>
    match op with
    | .put _ k _ => some k
    | .get _ _ => none)

/-- Whether a JSON value is an object without the key `k`. -/
def isObjWithout (j : Json) (k : String) : Bool :=
  match j with
  | .obj fields => (getKey fields k).isNone
  | _ => false

/-- The `processed_ts` field of a JSON object value. -/
def tsField (j : Json) : Option Json :=
  match j with
  | .obj fields => getKey fields "processed_ts"
  | _ => none

/-- Syntactic check for an ISO-8601 UTC timestamp of the shape produced
by `datetime.now(timezone.utc).isoformat()`: either
`YYYY-MM-DDTHH:MM:SS+00:00` or `YYYY-MM-DDTHH:MM:SS.ffffff+00:00`. -/
def isIso8601UTC (s : String) : Bool :=
  match s.data with
  | [y1, y2, y3, y4, '-', o1, o2, '-', d1, d2, 'T',
     h1, h2, ':', n1, n2, ':', s1, s2, '+', '0', '0', ':', '0', '0'] =>
    [y1, y2, y3, y4, o1, o2, d1, d2, h1, h2, n1, n2, s1, s2].all Char.isDigit
  | [y1, y2, y3, y4, '-', o1, o2, '-', d1, d2, 'T',
     h1, h2, ':', n1, n2, ':', s1, s2, '.', f1, f2, f3, f4, f5, f6,
     '+', '0', '0', ':', '0', '0'] =>
    [y1, y2, y3, y4, o1, o2, d1, d2, h1, h2, n1, n2, s1, s2,
     f1, f2, f3, f4, f5, f6].all Char.isDigit
  | _ => false

/-- A small concrete parser used to exercise the handler: the line `a`
parses to an object carrying a `user_id`, `b` to an object carrying a
stale `processed_ts`, `c` to a JSON array, and everything else fails to
parse. -/
def demoParse (l : String) : Option Json :=
  if l = "a" then some (.obj [("user_id", .num 1), ("x", .num 2)])
  else if l = "b" then some (.obj [("processed_ts", .str "old"), ("y", .str "z")])
  else if l = "c" then some (.arr [])
  else none

/-- A concrete environment used to exercise the handler on concrete
events: three stored objects and a constant clock. -/
def demoEnv : Env where
  getObject := fun b k =>
    if b ≠ "bkt" then .error "NoSuchBucket"
    else if k = "raw/a b.gz" then .ok "RAW1"
    else if k = "empty.gz" then .ok "RAW2"
    else if k = "arr.gz" then .ok "RAW3"
    else .error "NoSuchKey"
  putObject := fun _ _ _ => .ok ()
  gunzip := fun s =>
    if s = "RAW1" then .ok "a\n \nbad\nb\n"
    else if s = "RAW2" then .ok "\n \nbad\n"
    else if s = "RAW3" then .ok "c\n"
    else .error "not a gzip"
  parse := demoParse
  clock := fun _ => "2025-11-26T12:00:00+00:00"

/-! Lemmas about the dictionary operations. -/

theorem getKey_popKey (fields : List (String × Json)) (k : String) :
    getKey (popKey fields k) k = none := by
  induction fields with
  | nil => rfl
  | cons p rest ih =>
    obtain ⟨k', v⟩ := p
    by_cases h : k' = k
    · simpa [popKey, List.filter_cons, h] using ih
    · simpa [popKey, List.filter_cons, getKey, h] using ih

theorem popKey_of_absent (fields : List (String × Json)) (k : String)
    (h : getKey fields k = none) : popKey fields k = fields := by
  induction fields with
  | nil => rfl
  | cons p rest ih =>
    obtain ⟨k', v⟩ := p
    by_cases hk : k' = k
    · simp [getKey, hk] at h
    · simp [getKey, hk] at h
      simp [popKey, List.filter_cons, hk] at ih ⊢
      exact ih h

theorem getKey_setKey_self (fields : List (String × Json)) (k : String) (v : Json) :
    getKey (setKey fields k v) k = some v := by
  induction fields with
  | nil => simp [setKey, getKey]
  | cons p rest ih =>
    obtain ⟨k', v'⟩ := p
    by_cases h : k' = k
    · simp [setKey, h, getKey]
    · simp [setKey, h, getKey, ih]

theorem getKey_setKey_ne (fields : List (String × Json)) (q : String) (v : Json)
    (k : String) (h : q ≠ k) :
    getKey (setKey fields q v) k = getKey fields k := by
  induction fields with
  | nil => simp [setKey, getKey, h]
  | cons p rest ih =>
    obtain ⟨k', v'⟩ := p
    by_cases h2 : k' = q
    · subst h2; simp [setKey, getKey, h]
    · simp [setKey, h2, getKey, ih]

/-! Characterization of the per-line transformation loop. -/


theorem transformLines_ok (env : Env) (lines : List String) : ∀ t : Nat,
    (∀ l ∈ lines, isNonObjLine env l = false) →
    transformLines env lines t
      = .ok (transformSpec env lines t, t + (transformSpec env lines t).length) := by
  induction lines with
  | nil => intro t _; simp [transformLines, transformSpec]
  | cons line rest ih =>
    intro t h
    have hrest : ∀ l ∈ rest, isNonObjLine env l = false :=
      fun l hl => h l (List.mem_cons_of_mem _ hl)
    cases hc : classify env line with
    | blank => simp [transformLines, transformSpec, hc, ih t hrest]
    | malformed => simp [transformLines, transformSpec, hc, ih t hrest]
    | objLine fields =>
      simp [transformLines, transformSpec, hc, ih (t + 1) hrest]
      omega
    | nonObj =>
      have hline := h line (List.mem_cons_self _ _)
      simp [isNonObjLine, hc] at hline

theorem transformLines_no_nonObj (env : Env) (lines : List String) :
    ∀ t recs t', transformLines env lines t = .ok (recs, t') →
    ∀ l ∈ lines, isNonObjLine env l = false := by
  induction lines with
  | nil => intro t recs t' _ l hl; cases hl
  | cons line rest ih =>
    intro t recs t' h l hl
    cases hc : classify env line with
    | blank =>
      simp only [transformLines, hc] at h
      rcases List.mem_cons.mp hl with h1 | h1
      · subst h1; simp [isNonObjLine, hc]
      · exact ih t recs t' h l h1
    | malformed =>
      simp only [transformLines, hc] at h
      rcases List.mem_cons.mp hl with h1 | h1
      · subst h1; simp [isNonObjLine, hc]
      · exact ih t recs t' h l h1
    | objLine fields =>
      rcases hrec : transformLines env rest (t + 1) with e | p
      · simp [transformLines, hc, hrec] at h
      · obtain ⟨recs', t''⟩ := p
        rcases List.mem_cons.mp hl with h1 | h1
        · subst h1; simp [isNonObjLine, hc]
        · exact ih (t + 1) recs' t'' hrec l h1
    | nonObj => simp [transformLines, hc] at h

theorem transformLines_eq_spec (env : Env) (lines : List String) (t : Nat)
    (recs : List Json) (t' : Nat)
    (h : transformLines env lines t = .ok (recs, t')) :
    recs = transformSpec env lines t
    ∧ t' = t + (transformSpec env lines t).length := by
  have hno := transformLines_no_nonObj env lines t recs t' h
  have h2 := transformLines_ok env lines t hno
  rw [h] at h2
  injection h2 with h3
  exact ⟨congrArg Prod.fst h3, congrArg Prod.snd h3⟩

theorem transformSpec_mem (env : Env) (lines : List String) :
    ∀ t rec, rec ∈ transformSpec env lines t →
    ∃ fs, rec = Json.obj fs ∧ getKey fs "user_id" = none := by
  induction lines with
  | nil => intro t rec h; simp [transformSpec] at h
  | cons line rest ih =>
    intro t rec h
    cases hc : classify env line with
    | blank => simp only [transformSpec, hc] at h; exact ih t rec h
    | malformed => simp only [transformSpec, hc] at h; exact ih t rec h
    | nonObj => simp only [transformSpec, hc] at h; exact ih t rec h
    | objLine fields =>
      simp only [transformSpec, hc, List.mem_cons] at h
      rcases h with h1 | h1
      · refine ⟨_, h1, ?_⟩
        rw [getKey_setKey_ne _ _ _ _ (by decide)]
        exact getKey_popKey ..
      · exact ih (t + 1) rec h1

theorem transformSpec_getElem (env : Env) (lines : List String) :
    ∀ t i, i < (transformSpec env lines t).length →
    ∃ fs, (transformSpec env lines t)[i]? = some (Json.obj fs)
      ∧ getKey fs "processed_ts" = some (Json.str (env.clock (t + i))) := by
  induction lines with
  | nil => intro t i h; simp [transformSpec] at h
  | cons line rest ih =>
    intro t i h
    cases hc : classify env line with
    | blank => simp only [transformSpec, hc] at h ⊢; exact ih t i h
    | malformed => simp only [transformSpec, hc] at h ⊢; exact ih t i h
    | nonObj => simp only [transformSpec, hc] at h ⊢; exact ih t i h
    | objLine fields =>
      simp only [transformSpec, hc] at h ⊢
      cases i with
      | zero =>
        refine ⟨setKey (popKey fields "user_id") "processed_ts"
            (Json.str (env.clock t)), by simp, ?_⟩
        rw [Nat.add_zero]
        exact getKey_setKey_self ..
      | succ j =>
        have h' : j < (transformSpec env rest (t + 1)).length := by
          simpa using h
        obtain ⟨fs, h1, h2⟩ := ih (t + 1) j h'
        refine ⟨fs, by simpa using h1, ?_⟩
        rw [show t + (j + 1) = t + 1 + j by omega]
        exact h2

theorem transformSpec_length (env : Env) (lines : List String) : ∀ t : Nat,
    (transformSpec env lines t).length
      = (lines.filter (fun l => isObjLine env l)).length := by
  induction lines with
  | nil => intro t; rfl
  | cons line rest ih =>
    intro t
    cases hc : classify env line with
    | blank => simp [transformSpec, hc, List.filter_cons, isObjLine, ih t]
    | malformed => simp [transformSpec, hc, List.filter_cons, isObjLine, ih t]
    | nonObj => simp [transformSpec, hc, List.filter_cons, isObjLine, ih t]
    | objLine fields => simp [transformSpec, hc, List.filter_cons, isObjLine, ih (t + 1)]


/-! Lemmas about the destination-key computation. -/

theorem take_sub_three (pre : List Char) :
    (pre ++ ".gz".data).take ((pre ++ ".gz".data).length - 3) = pre := by
  have h : (pre ++ ".gz".data).length - 3 = pre.length := by
    simp [List.length_append]
  rw [h, List.take_left]

theorem gz_suffix (pre : List Char) :
    List.isSuffixOf ".gz".data (pre ++ ".gz".data) = true := by
  rw [List.isSuffixOf_iff_suffix]
  exact List.suffix_append ..

theorem raw_prefix_append (sd : List Char) :
    List.isPrefixOf "raw/".data ("raw/".data ++ sd) = true := by
  rw [List.isPrefixOf_iff_prefix]
  exact List.prefix_append ..

theorem gzToJson_gz (pre : List Char) :
    gzToJson (pre ++ ".gz".data) = pre ++ "json".data := by
  unfold gzToJson
  rw [gz_suffix]
  simp only [if_true]
  rw [take_sub_three]

theorem gzToJson_nongz (d : List Char) (h : ¬ List.isSuffixOf ".gz".data d = true) :
    gzToJson d = d := by
  unfold gzToJson
  rw [if_neg h]

theorem destKeyChars_raw (sd : List Char) :
    destKeyChars ("raw/".data ++ sd) = gzToJson ("processed/".data ++ sd) := by
  unfold destKeyChars
  rw [raw_prefix_append]
  simp only [if_true]
  rw [show (4 : Nat) = "raw/".data.length from rfl, List.drop_left]

theorem destKeyChars_nonraw (k : List Char)
    (h : ¬ List.isPrefixOf "raw/".data k = true) :
    destKeyChars k = gzToJson ("processed/".data ++ k) := by
  unfold destKeyChars
  rw [if_neg h]

theorem destKeyOf_raw_gz (s : String) :
    destKeyOf ("raw/" ++ s ++ ".gz") = "processed/" ++ s ++ "json" := by
  have h1 : ("raw/" ++ s ++ ".gz").data = "raw/".data ++ (s.data ++ ".gz".data) := by
    simp [String.data_append]
  have h2 : ("processed/" ++ s ++ "json").data
      = ("processed/".data ++ s.data) ++ "json".data := by
    simp [String.data_append]
  show String.mk (destKeyChars ("raw/" ++ s ++ ".gz").data) = _
  rw [h1, destKeyChars_raw, ← List.append_assoc, gzToJson_gz, ← h2]

theorem destKeyOf_nonraw_gz (s : String)
    (h : ¬ List.isPrefixOf "raw/".data (s ++ ".gz").data = true) :
    destKeyOf (s ++ ".gz") = "processed/" ++ s ++ "json" := by
  have h1 : (s ++ ".gz").data = s.data ++ ".gz".data := by simp [String.data_append]
  have h2 : ("processed/" ++ s ++ "json").data
      = ("processed/".data ++ s.data) ++ "json".data := by simp [String.data_append]
  show String.mk (destKeyChars (s ++ ".gz").data) = _
  rw [h1] at h ⊢
  rw [destKeyChars_nonraw _ h, ← List.append_assoc, gzToJson_gz, ← h2]

theorem destKeyOf_raw_nongz (s : String)
    (h : ¬ List.isSuffixOf ".gz".data ("processed/" ++ s).data = true) :
    destKeyOf ("raw/" ++ s) = "processed/" ++ s := by
  have h1 : ("raw/" ++ s).data = "raw/".data ++ s.data := by simp [String.data_append]
  have h2 : ("processed/" ++ s).data = "processed/".data ++ s.data := by
    simp [String.data_append]
  show String.mk (destKeyChars ("raw/" ++ s).data) = _
  rw [h2] at h
  rw [h1, destKeyChars_raw, gzToJson_nongz _ h, ← h2]

theorem destKeyOf_nonraw_nongz (s : String)
    (h1 : ¬ List.isPrefixOf "raw/".data s.data = true)
    (h2 : ¬ List.isSuffixOf ".gz".data ("processed/" ++ s).data = true) :
    destKeyOf s = "processed/" ++ s := by
  have hd : ("processed/" ++ s).data = "processed/".data ++ s.data := by
    simp [String.data_append]
  show String.mk (destKeyChars s.data) = _
  rw [hd] at h2
  rw [destKeyChars_nonraw _ h1, gzToJson_nongz _ h2, ← hd]

/-! Lemmas about record processing and the batch loop. -/


theorem procWithKey_shape (env : Env) (bucket k : String) (t : Nat) :
    (procWithKey env bucket k t).1.head? = some (Op.get bucket k)
    ∧ (putKeysOf (procWithKey env bucket k t).1 = []
       ∨ putKeysOf (procWithKey env bucket k t).1 = [destKeyOf k]) := by
  unfold procWithKey
  split
  · simp [putKeysOf]
  · split
    · simp [putKeysOf]
    · split
      · simp [putKeysOf]
      · split
        · simp [putKeysOf]
        · split
          · simp [putKeysOf]
          · simp [putKeysOf]

theorem runRecords_error_stops (env : Env) (rs₁ : List S3Record) :
    ∀ (t : Nat) (e : Err), (runRecords env rs₁ t).2.2 = .error e →
    ∀ rs₂ : List S3Record, runRecords env (rs₁ ++ rs₂) t = runRecords env rs₁ t := by
  induction rs₁ with
  | nil => intro t e h rs₂; simp [runRecords] at h
  | cons r rs ih =>
    intro t e h rs₂
    rcases hpr : processRecord env r t with ⟨ops, t', res⟩
    cases res with
    | error e' => simp [runRecords, hpr, List.cons_append]
    | ok u =>
      have h' : (runRecords env rs t').2.2 = .error e := by
        rcases hrr : runRecords env rs t' with ⟨ops₂, t₂, res₂⟩
        simp only [runRecords, hpr, hrr] at h
        simpa [hrr] using h
      simp only [List.cons_append, runRecords, hpr, List.append_eq,
        ih t' e h' rs₂]

/-! Claim theorems. -/


/-- C1: for every input line that parses as a JSON object, the
transformed record is an object without a `user_id` field, and removing
an absent `user_id` is a no-op. -/
theorem c1_user_id_removed (env : Env) (lines : List String) (t : Nat)
    (recs : List Json) (t' : Nat)
    (h : transformLines env lines t = .ok (recs, t')) :
    (∀ rec ∈ recs, isObjWithout rec "user_id" = true)
    ∧ (∀ fields, getKey fields "user_id" = none → popKey fields "user_id" = fields) := by
  constructor
  · intro rec hrec
    obtain ⟨h1, _⟩ := transformLines_eq_spec env lines t recs t' h
    subst h1
    obtain ⟨fs, hfs, hnone⟩ := transformSpec_mem env lines t rec hrec
    subst hfs
    simp [isObjWithout, hnone]
  · intro fields hf
    exact popKey_of_absent fields _ hf

theorem c1_witness :
    isObjWithout (Json.obj [("x", Json.num 2),
        ("processed_ts", Json.str "2025-11-26T12:00:00+00:00")]) "user_id" = true :=
  (c1_user_id_removed demoEnv (splitlines "a\n \nbad\nb\n") 0
      [Json.obj [("x", Json.num 2),
         ("processed_ts", Json.str "2025-11-26T12:00:00+00:00")],
       Json.obj [("processed_ts", Json.str "2025-11-26T12:00:00+00:00"),
         ("y", Json.str "z")]]
      2 rfl).1 _ (List.mem_cons_self _ _)

/-- C2: every transformed record carries a `processed_ts` field whose
value is the clock value captured at that record's own transform step
(the i-th produced record reads the clock at index t + i), the timestamp
is a syntactically valid ISO-8601 UTC timestamp whenever the clock
produces such timestamps, and setting `processed_ts` overwrites any
pre-existing value. -/
theorem c2_processed_ts (env : Env) (lines : List String) (t : Nat)
    (recs : List Json) (t' : Nat)
    (h : transformLines env lines t = .ok (recs, t'))
    (hclock : ∀ n, isIso8601UTC (env.clock n) = true) :
    (∀ i, i < recs.length →
       (recs[i]?.bind tsField = some (Json.str (env.clock (t + i)))
        ∧ isIso8601UTC (env.clock (t + i)) = true))
    ∧ (∀ fields v, getKey (setKey fields "processed_ts" v) "processed_ts" = some v) := by
  constructor
  · intro i hi
    obtain ⟨h1, _⟩ := transformLines_eq_spec env lines t recs t' h
    subst h1
    obtain ⟨fs, h2, h3⟩ := transformSpec_getElem env lines t i hi
    refine ⟨?_, hclock _⟩
    rw [h2]
    simpa [tsField] using h3
  · intro fields v
    exact getKey_setKey_self ..

theorem c2_witness :
    (([Json.obj [("x", Json.num 2),
          ("processed_ts", Json.str "2025-11-26T12:00:00+00:00")],
        Json.obj [("processed_ts", Json.str "2025-11-26T12:00:00+00:00"),
          ("y", Json.str "z")]])[1]?.bind tsField
       = some (Json.str (demoEnv.clock (0 + 1)))
     ∧ isIso8601UTC (demoEnv.clock (0 + 1)) = true) :=
  (c2_processed_ts demoEnv (splitlines "a\n \nbad\nb\n") 0
      [Json.obj [("x", Json.num 2),
         ("processed_ts", Json.str "2025-11-26T12:00:00+00:00")],
       Json.obj [("processed_ts", Json.str "2025-11-26T12:00:00+00:00"),
         ("y", Json.str "z")]]
      2 rfl (fun _ => rfl)).1 1 (by decide)

/-- C3: when no line parses to a non-object JSON value, the transform
succeeds and produces exactly the records of the in-order per-line
specification, which skips blank and malformed lines and yields exactly
one record per object line. -/
theorem c3_skip_policy (env : Env) (lines : List String) (t : Nat)
    (h : ∀ l ∈ lines, isNonObjLine env l = false) :
    transformLines env lines t
      = .ok (transformSpec env lines t, t + (transformSpec env lines t).length)
    ∧ (transformSpec env lines t).length
      = (lines.filter (fun l => isObjLine env l)).length :=
  ⟨transformLines_ok env lines t h, transformSpec_length env lines t⟩

theorem c3_witness :
    transformLines demoEnv ["a", " ", "bad", "b"] 0
      = .ok (transformSpec demoEnv ["a", " ", "bad", "b"] 0,
             0 + (transformSpec demoEnv ["a", " ", "bad", "b"] 0).length)
    ∧ (transformSpec demoEnv ["a", " ", "bad", "b"] 0).length
      = (["a", " ", "bad", "b"].filter (fun l => isObjLine demoEnv l)).length :=
  c3_skip_policy demoEnv ["a", " ", "bad", "b"] 0 (by decide)

/-- C4: a notification whose decompressed content transforms to zero
records issues no put operation (only the get), succeeds, and processing
continues with the remaining notifications. -/
theorem c4_no_empty_write (env : Env) (r : S3Record) (rs : List S3Record)
    (t t' : Nat) (raw content : String)
    (hget : env.getObject r.bucket (unquote_plus r.key) = .ok raw)
    (hgz : env.gunzip raw = .ok content)
    (htr : transformLines env (splitlines content) t = .ok ([], t')) :
    processRecord env r t = ([.get r.bucket (unquote_plus r.key)], t', .ok ())
    ∧ runRecords env (r :: rs) t
      = (Op.get r.bucket (unquote_plus r.key) :: (runRecords env rs t').1,
         (runRecords env rs t').2) := by
  have h1 : processRecord env r t
      = ([.get r.bucket (unquote_plus r.key)], t', .ok ()) := by
    show procWithKey env r.bucket (unquote_plus r.key) t = _
    simp [procWithKey, hget, hgz, htr]
  refine ⟨h1, ?_⟩
  rcases hrr : runRecords env rs t' with ⟨ops₂, t₂, res₂⟩
  simp [runRecords, h1, hrr]

theorem c4_witness :
    processRecord demoEnv ⟨"bkt", "empty.gz"⟩ 0
      = ([.get "bkt" (unquote_plus "empty.gz")], 0, .ok ())
    ∧ runRecords demoEnv (⟨"bkt", "empty.gz"⟩ :: []) 0
      = (Op.get "bkt" (unquote_plus "empty.gz") :: (runRecords demoEnv [] 0).1,
         (runRecords demoEnv [] 0).2) :=
  c4_no_empty_write demoEnv ⟨"bkt", "empty.gz"⟩ [] 0 0 "RAW2" "\n \nbad\n"
    rfl rfl rfl

/-- C5: the destination key replaces a leading `raw/` with `processed/`
(otherwise `processed/` is prepended), and a resulting key ending in
`.gz` has those three characters stripped and the literal `json`
appended with no dot, as on the two concrete example keys. -/
theorem c5_dest_key_mapping :
    (∀ s : String, destKeyOf ("raw/" ++ s ++ ".gz") = "processed/" ++ s ++ "json")
    ∧ (∀ s : String, ¬ List.isPrefixOf "raw/".data (s ++ ".gz").data = true →
        destKeyOf (s ++ ".gz") = "processed/" ++ s ++ "json")
    ∧ (∀ s : String, ¬ List.isSuffixOf ".gz".data ("processed/" ++ s).data = true →
        destKeyOf ("raw/" ++ s) = "processed/" ++ s)
    ∧ (∀ s : String, ¬ List.isPrefixOf "raw/".data s.data = true →
        ¬ List.isSuffixOf ".gz".data ("processed/" ++ s).data = true →
        destKeyOf s = "processed/" ++ s)
    ∧ destKeyOf "raw/year=2025/month=11/day=26/file.gz"
        = "processed/year=2025/month=11/day=26/filejson"
    ∧ destKeyOf "other/path/data.gz" = "processed/other/path/datajson" :=
  ⟨destKeyOf_raw_gz, destKeyOf_nonraw_gz, destKeyOf_raw_nongz,
   destKeyOf_nonraw_nongz, by decide, by decide⟩

theorem c5_witness :
    destKeyOf ("other/path/data" ++ ".gz") = "processed/" ++ "other/path/data" ++ "json"
    ∧ destKeyOf ("raw/" ++ "a/b.txt") = "processed/" ++ "a/b.txt"
    ∧ destKeyOf "plain.txt" = "processed/" ++ "plain.txt" :=
  ⟨c5_dest_key_mapping.2.1 "other/path/data" (by decide),
   c5_dest_key_mapping.2.2.1 "a/b.txt" (by decide),
   c5_dest_key_mapping.2.2.2.1 "plain.txt" (by decide) (by decide)⟩

/-- C6: notifications are processed strictly in array order (a record
that succeeds contributes its operations before the remaining records
run), and a record-processing failure aborts the batch: appending
further notifications after a failing prefix changes nothing about what
runs, and the error propagates out of the handler. -/
theorem c6_failure_stops_batch (env : Env) (rs₁ rs₂ : List S3Record)
    (t : Nat) (e : Err)
    (h : (runRecords env rs₁ t).2.2 = .error e) :
    runRecords env (rs₁ ++ rs₂) t = runRecords env rs₁ t
    ∧ (lambda_handler env ⟨some (rs₁ ++ rs₂)⟩ t).2 = .error e
    ∧ (∀ (r : S3Record) (rs : List S3Record) (t₀ : Nat),
        (processRecord env r t₀).2.2 = .ok () →
        runRecords env (r :: rs) t₀
          = ((processRecord env r t₀).1
               ++ (runRecords env rs (processRecord env r t₀).2.1).1,
             (runRecords env rs (processRecord env r t₀).2.1).2)) := by
  have hmain := runRecords_error_stops env rs₁ t e h rs₂
  refine ⟨hmain, ?_, ?_⟩
  · rcases hrr : runRecords env rs₁ t with ⟨ops, t₂, res₂⟩
    rw [hrr] at h
    simp only at h
    subst h
    simp [lambda_handler, hmain, hrr]
  · intro r rs t₀ hok
    rcases hpr : processRecord env r t₀ with ⟨ops, t', res⟩
    rw [hpr] at hok
    simp only at hok
    subst hok
    rcases hrr : runRecords env rs t' with ⟨ops₂, t₂, res₂⟩
    simp [runRecords, hpr, hrr]

theorem c6_witness :
    runRecords demoEnv ([⟨"bkt", "missing"⟩] ++ [⟨"bkt", "raw/a b.gz"⟩]) 0
      = runRecords demoEnv [⟨"bkt", "missing"⟩] 0
    ∧ (lambda_handler demoEnv
        ⟨some ([⟨"bkt", "missing"⟩] ++ [⟨"bkt", "raw/a b.gz"⟩])⟩ 0).2
      = .error (.s3 "NoSuchKey")
    ∧ runRecords demoEnv (⟨"bkt", "empty.gz"⟩ :: []) 0
      = ((processRecord demoEnv ⟨"bkt", "empty.gz"⟩ 0).1
           ++ (runRecords demoEnv []
                 (processRecord demoEnv ⟨"bkt", "empty.gz"⟩ 0).2.1).1,
         (runRecords demoEnv []
            (processRecord demoEnv ⟨"bkt", "empty.gz"⟩ 0).2.1).2) :=
  ⟨(c6_failure_stops_batch demoEnv [⟨"bkt", "missing"⟩] [⟨"bkt", "raw/a b.gz"⟩] 0
      (.s3 "NoSuchKey") rfl).1,
   (c6_failure_stops_batch demoEnv [⟨"bkt", "missing"⟩] [⟨"bkt", "raw/a b.gz"⟩] 0
      (.s3 "NoSuchKey") rfl).2.1,
   (c6_failure_stops_batch demoEnv [⟨"bkt", "missing"⟩] [⟨"bkt", "raw/a b.gz"⟩] 0
      (.s3 "NoSuchKey") rfl).2.2 ⟨"bkt", "empty.gz"⟩ [] 0 rfl⟩

/-- C7: whenever the handler returns normally, the returned value is the
fixed status object. -/
theorem c7_fixed_status (env : Env) (event : Event) (t : Nat) (res : Json)
    (h : (lambda_handler env event t).2 = .ok res) :
    res = Json.obj [("status", Json.str "ok")] := by
  unfold lambda_handler at h
  rcases hrr : runRecords env (event.records?.getD []) t with ⟨ops, t₂, res₂⟩
  rw [hrr] at h
  cases res₂ with
  | ok u =>
    simp only at h
    injection h with h2
    exact h2.symm
  | error e => simp at h

theorem c7_witness : statusOk = Json.obj [("status", Json.str "ok")] :=
  c7_fixed_status demoEnv ⟨some []⟩ 0 statusOk rfl

/-- C8: the storage read of every record uses the URL-decoded key, any
put issued while processing that record targets the destination key
computed from the same decoded key, and the decoding turns `+` into a
space and percent-escapes into their characters. -/
theorem c8_key_decoding (env : Env) (r : S3Record) (t : Nat) :
    (processRecord env r t).1.head? = some (Op.get r.bucket (unquote_plus r.key))
    ∧ (putKeysOf (processRecord env r t).1 = []
       ∨ putKeysOf (processRecord env r t).1 = [destKeyOf (unquote_plus r.key)])
    ∧ unquote_plus "year%3D2025+file" = "year=2025 file" :=
  ⟨(procWithKey_shape env r.bucket (unquote_plus r.key) t).1,
   (procWithKey_shape env r.bucket (unquote_plus r.key) t).2, rfl⟩

/-- C9: a line parsing to valid non-object JSON is not covered by the
silent-skip policy: it raises a TypeError that aborts the whole
invocation. -/
theorem c9_non_object_aborts (env : Env) (r : S3Record) (t : Nat)
    (raw content line : String) (rest : List String)
    (hget : env.getObject r.bucket (unquote_plus r.key) = .ok raw)
    (hgz : env.gunzip raw = .ok content)
    (hsplit : splitlines content = line :: rest)
    (hclass : classify env line = .nonObj) :
    transformLines env (splitlines content) t = .error .typeError
    ∧ (lambda_handler env ⟨some [r]⟩ t).2 = .error .typeError := by
  have h1 : transformLines env (splitlines content) t = .error .typeError := by
    rw [hsplit]
    simp [transformLines, hclass]
  have h2 : processRecord env r t
      = ([.get r.bucket (unquote_plus r.key)], t, .error .typeError) := by
    show procWithKey env r.bucket (unquote_plus r.key) t = _
    simp [procWithKey, hget, hgz, h1]
  refine ⟨h1, ?_⟩
  simp [lambda_handler, runRecords, h2]

theorem c9_witness :
    transformLines demoEnv (splitlines "c\n") 0 = .error .typeError
    ∧ (lambda_handler demoEnv ⟨some [⟨"bkt", "arr.gz"⟩]⟩ 0).2 = .error .typeError :=
  c9_non_object_aborts demoEnv ⟨"bkt", "arr.gz"⟩ 0 "RAW3" "c\n" "c" []
    rfl rfl rfl rfl

/-- C10: an event without a Records key, or with an empty Records list,
issues no storage operation and returns the ok status. -/
theorem c10_empty_event (env : Env) (t : Nat) :
    lambda_handler env ⟨none⟩ t = ([], .ok (Json.obj [("status", Json.str "ok")]))
    ∧ lambda_handler env ⟨some []⟩ t
      = ([], .ok (Json.obj [("status", Json.str "ok")])) :=
  ⟨rfl, rfl⟩

end Processor
